import Mathlib

/-!
Shallow embedding of the core of the `ai-parking-system` repository
(files `ai-services/utils.py`, `ai-services/video_processor.py`,
`ai-services/parking_detector.py`), together with theorems checking the
natural-language specification against the embedded code.

Python floats are modelled as rationals (`ℚ`); bounding boxes are
`(x, y, width, height)` quadruples of rationals; Python dictionaries
become structures; Python `None` becomes `Option.none`.
-/

/-- Axis-aligned rectangle given as `(x, y, width, height)`,
as used throughout the repository for slots and detection boxes. -/
structure Rect where
  x : ℚ
  y : ℚ
  w : ℚ
  h : ℚ
deriving DecidableEq, Repr

/-- Embedding of `utils.calculate_iou` (identical bodies also appear as
`VideoProcessor._calculate_overlap` and `ParkingDetector._calculate_overlap`):
intersection-over-union of two `(x, y, width, height)` boxes. -/
def calculate_iou (box1 box2 : Rect) : ℚ :=
  let left := max box1.x box2.x
  let top := max box1.y box2.y
  let right := min (box1.x + box1.w) (box2.x + box2.w)
  let bottom := min (box1.y + box1.h) (box2.y + box2.h)
  if left < right ∧ top < bottom then
    let intersection := (right - left) * (bottom - top)
    let area1 := box1.w * box1.h
    let area2 := box2.w * box2.h
    let union := area1 + area2 - intersection
    if 0 < union then intersection / union else 0
  else 0

lemma calculate_iou_comm (a b : Rect) : calculate_iou a b = calculate_iou b a := by
  simp only [calculate_iou]
  rw [max_comm a.x b.x, max_comm a.y b.y, min_comm (a.x + a.w) (b.x + b.w),
    min_comm (a.y + a.h) (b.y + b.h), add_comm (a.w * a.h) (b.w * b.h)]

lemma calculate_iou_nonneg (a b : Rect) : 0 ≤ calculate_iou a b := by
  simp only [calculate_iou]
  split
  case isTrue hib =>
    obtain ⟨hx, hy⟩ := hib
    split
    case isTrue hu =>
      apply div_nonneg _ (le_of_lt hu)
      have hxl : a.x ≤ max a.x b.x := le_max_left _ _
      have hxr : min (a.x + a.w) (b.x + b.w) ≤ a.x + a.w := min_le_left _ _
      have h1 : (0:ℚ) ≤ min (a.x + a.w) (b.x + b.w) - max a.x b.x := by linarith
      have h2 : (0:ℚ) ≤ min (a.y + a.h) (b.y + b.h) - max a.y b.y := by linarith
      exact mul_nonneg h1 h2
    case isFalse _ => exact le_refl 0
  case isFalse _ => exact le_refl 0

lemma calculate_iou_le_one (a b : Rect) : calculate_iou a b ≤ 1 := by
  simp only [calculate_iou]
  split
  case isTrue hib =>
    obtain ⟨hx, hy⟩ := hib
    have hxl : a.x ≤ max a.x b.x := le_max_left _ _
    have hxl2 : b.x ≤ max a.x b.x := le_max_right _ _
    have hxr : min (a.x + a.w) (b.x + b.w) ≤ a.x + a.w := min_le_left _ _
    have hxr2 : min (a.x + a.w) (b.x + b.w) ≤ b.x + b.w := min_le_right _ _
    have hyl : a.y ≤ max a.y b.y := le_max_left _ _
    have hyl2 : b.y ≤ max a.y b.y := le_max_right _ _
    have hyr : min (a.y + a.h) (b.y + b.h) ≤ a.y + a.h := min_le_left _ _
    have hyr2 : min (a.y + a.h) (b.y + b.h) ≤ b.y + b.h := min_le_right _ _
    set L := max a.x b.x with hL
    set R := min (a.x + a.w) (b.x + b.w) with hR
    set T := max a.y b.y with hT
    set B := min (a.y + a.h) (b.y + b.h) with hB
    have hRL : 0 < R - L := by linarith
    have hBT : 0 < B - T := by linarith
    have hw1 : R - L ≤ a.w := by linarith
    have hw2 : R - L ≤ b.w := by linarith
    have hh1 : B - T ≤ a.h := by linarith
    have hh2 : B - T ≤ b.h := by linarith
    have hint1 : (R - L) * (B - T) ≤ a.w * a.h :=
      mul_le_mul hw1 hh1 (le_of_lt hBT) (by linarith)
    have hint2 : (R - L) * (B - T) ≤ b.w * b.h :=
      mul_le_mul hw2 hh2 (le_of_lt hBT) (by linarith)
    split
    case isTrue hu =>
      rw [div_le_one hu]
      linarith
    case isFalse _ => exact zero_le_one
  case isFalse _ => exact zero_le_one

lemma calculate_iou_self (a : Rect) (hw : 0 < a.w) (hh : 0 < a.h) :
    calculate_iou a a = 1 := by
  simp only [calculate_iou]
  rw [max_self, max_self, min_self, min_self]
  have hx : a.x < a.x + a.w := by linarith
  have hy : a.y < a.y + a.h := by linarith
  rw [if_pos ⟨hx, hy⟩]
  have harea : (a.x + a.w - a.x) * (a.y + a.h - a.y) = a.w * a.h := by ring
  rw [harea]
  have hpos : (0:ℚ) < a.w * a.h := mul_pos hw hh
  rw [if_pos (by linarith)]
  have : a.w * a.h + a.w * a.h - a.w * a.h = a.w * a.h := by ring
  rw [this, div_self (ne_of_gt hpos)]

lemma calculate_iou_separated (a b : Rect)
    (hsep : a.x + a.w ≤ b.x ∨ b.x + b.w ≤ a.x ∨ a.y + a.h ≤ b.y ∨ b.y + b.h ≤ a.y) :
    calculate_iou a b = 0 := by
  simp only [calculate_iou]
  rw [if_neg]
  rintro ⟨hx, hy⟩
  have hxl : a.x ≤ max a.x b.x := le_max_left _ _
  have hxl2 : b.x ≤ max a.x b.x := le_max_right _ _
  have hxr : min (a.x + a.w) (b.x + b.w) ≤ a.x + a.w := min_le_left _ _
  have hxr2 : min (a.x + a.w) (b.x + b.w) ≤ b.x + b.w := min_le_right _ _
  have hyl : a.y ≤ max a.y b.y := le_max_left _ _
  have hyl2 : b.y ≤ max a.y b.y := le_max_right _ _
  have hyr : min (a.y + a.h) (b.y + b.h) ≤ a.y + a.h := min_le_left _ _
  have hyr2 : min (a.y + a.h) (b.y + b.h) ≤ b.y + b.h := min_le_right _ _
  rcases hsep with h | h | h | h <;> linarith

lemma calculate_iou_degenerate (a b : Rect)
    (hdim : a.w ≤ 0 ∨ a.h ≤ 0 ∨ b.w ≤ 0 ∨ b.h ≤ 0) :
    calculate_iou a b = 0 := by
  simp only [calculate_iou]
  rw [if_neg]
  rintro ⟨hx, hy⟩
  have hxl : a.x ≤ max a.x b.x := le_max_left _ _
  have hxl2 : b.x ≤ max a.x b.x := le_max_right _ _
  have hxr : min (a.x + a.w) (b.x + b.w) ≤ a.x + a.w := min_le_left _ _
  have hxr2 : min (a.x + a.w) (b.x + b.w) ≤ b.x + b.w := min_le_right _ _
  have hyl : a.y ≤ max a.y b.y := le_max_left _ _
  have hyl2 : b.y ≤ max a.y b.y := le_max_right _ _
  have hyr : min (a.y + a.h) (b.y + b.h) ≤ a.y + a.h := min_le_left _ _
  have hyr2 : min (a.y + a.h) (b.y + b.h) ≤ b.y + b.h := min_le_right _ _
  rcases hdim with h | h | h | h <;> linarith

/-- C7: the Geometric Overlap Utility (`calculate_iou`, also duplicated as
`_calculate_overlap` in the video processor and the detector) is symmetric,
always lies in `[0, 1]`, equals 1 on a positive-area rectangle against itself,
returns 0 for separated (non-intersecting) rectangles, and returns 0 whenever
either rectangle has non-positive width or height. -/
theorem calculate_iou_spec (a b : Rect) :
    calculate_iou a b = calculate_iou b a ∧
    (0 ≤ calculate_iou a b ∧ calculate_iou a b ≤ 1) ∧
    (0 < a.w → 0 < a.h → calculate_iou a a = 1) ∧
    (a.x + a.w ≤ b.x ∨ b.x + b.w ≤ a.x ∨ a.y + a.h ≤ b.y ∨ b.y + b.h ≤ a.y →
      calculate_iou a b = 0) ∧
    (a.w ≤ 0 ∨ a.h ≤ 0 ∨ b.w ≤ 0 ∨ b.h ≤ 0 → calculate_iou a b = 0) :=
  ⟨calculate_iou_comm a b,
   ⟨calculate_iou_nonneg a b, calculate_iou_le_one a b⟩,
   fun hw hh => calculate_iou_self a hw hh,
   fun hsep => calculate_iou_separated a b hsep,
   fun hdim => calculate_iou_degenerate a b hdim⟩

/-- Witness for C7 at concrete rectangles: a `10×10` box at the origin against
a half-overlapping `10×10` box, plus the self, separated and degenerate cases. -/
theorem calculate_iou_spec_witness :
    calculate_iou ⟨0, 0, 10, 10⟩ ⟨5, 0, 10, 10⟩ =
      calculate_iou ⟨5, 0, 10, 10⟩ ⟨0, 0, 10, 10⟩ ∧
    calculate_iou ⟨0, 0, 10, 10⟩ ⟨0, 0, 10, 10⟩ = 1 ∧
    calculate_iou ⟨0, 0, 10, 10⟩ ⟨20, 0, 10, 10⟩ = 0 ∧
    calculate_iou ⟨0, 0, -3, 10⟩ ⟨0, 0, 10, 10⟩ = 0 :=
  ⟨(calculate_iou_spec ⟨0, 0, 10, 10⟩ ⟨5, 0, 10, 10⟩).1,
   (calculate_iou_spec ⟨0, 0, 10, 10⟩ ⟨0, 0, 10, 10⟩).2.2.1 (by norm_num) (by norm_num),
   (calculate_iou_spec ⟨0, 0, 10, 10⟩ ⟨20, 0, 10, 10⟩).2.2.2.1 (by norm_num),
   (calculate_iou_spec ⟨0, 0, -3, 10⟩ ⟨0, 0, 10, 10⟩).2.2.2.2 (by norm_num)⟩

/-- Detection record produced by the Detection Capability Adapter:
bounding box `(x, y, width, height)`, confidence, vehicle class label. -/
structure Detection where
  bbox : Rect
  confidence : ℚ
  cls : String
deriving DecidableEq, Repr

/-- Parking slot definition: `id`, `slot_number` and its rectangle
(the `coordinates` dictionary of the slot configuration). -/
structure Slot where
  id : ℕ
  slotNumber : ℕ
  rect : Rect
deriving DecidableEq, Repr

/-- Grayscale features that `_analyze_slot_image` extracts from the cropped
slot region (edge density from the Canny filter, intensity variance, mean
intensity), plus whether the crop has zero pixels. The cv2 image operations
are external capabilities, so the crop is modelled by these features. -/
structure CropData where
  isEmpty : Bool
  edgeDensity : ℚ
  variance : ℚ
  meanIntensity : ℚ
deriving DecidableEq, Repr

/-- One video frame as the classifier sees it: the detection list the
detector returned on it, and the crop features at each rectangle. -/
structure Frame where
  detections : List Detection
  crop : Rect → CropData

/-- Embedding of `VideoProcessor._analyze_slot_image`: weighted combination
(0.4 / 0.3 / 0.3) of edge density, normalized variance and inverted mean
brightness, clipped to 1; a crop of size 0 yields 0. -/
def analyzeSlotImage (c : CropData) : ℚ :=
  if c.isEmpty then 0
  else
    let occupancy_score :=
      c.edgeDensity * (4/10) + min (c.variance / 1000) 1 * (3/10) +
        (1 - c.meanIntensity / 255) * (3/10)
    min occupancy_score 1

/-- Running state of the detection loop in `_analyze_slot_occupancy`:
`is_occupied`, `best_confidence`, `vehicle_type`, `detection_box`. -/
structure OccState where
  isOccupied : Bool
  bestConfidence : ℚ
  vehicleType : Option String
  detectionBox : Option Rect
deriving DecidableEq, Repr

/-- Initial state of the detection loop. -/
def initOccState : OccState := ⟨false, 0, none, none⟩

/-- One iteration of the detection loop of `_analyze_slot_occupancy`: a
detection whose overlap with the slot exceeds `0.5` and whose confidence
exceeds the running best becomes the representative detection. -/
def occStep (slotRect : Rect) (s : OccState) (d : Detection) : OccState :=
  if calculate_iou slotRect d.bbox > 1/2 ∧ d.confidence > s.bestConfidence then
    ⟨true, d.confidence, some d.cls, some d.bbox⟩
  else s

/-- The detection loop of `_analyze_slot_occupancy` over the frame's
detection list. -/
def occLoop (slotRect : Rect) (dets : List Detection) : OccState :=
  dets.foldl (occStep slotRect) initOccState

/-- Per-frame per-slot verdict (`SlotFrameVerdict` of the data model). -/
structure Verdict where
  slotId : ℕ
  slotNumber : ℕ
  isOccupied : Bool
  confidence : ℚ
  vehicleType : Option String
  detectionBox : Option Rect
deriving DecidableEq, Repr

/-- Embedding of `VideoProcessor._analyze_slot_occupancy`: detection-overlap
primary path, then the pixel-heuristic fallback when no detection qualified. -/
def analyzeSlotOccupancy (frame : Frame) (slot : Slot) : Verdict :=
  let s := occLoop slot.rect frame.detections
  if s.isOccupied then
    ⟨slot.id, slot.slotNumber, true, s.bestConfidence, s.vehicleType, s.detectionBox⟩
  else
    let occupancy_score := analyzeSlotImage (frame.crop slot.rect)
    ⟨slot.id, slot.slotNumber, occupancy_score > 6/10, occupancy_score,
      s.vehicleType, s.detectionBox⟩

/-- Result record of `ParkingDetector.detect_in_regions` for one region. -/
structure RegionVerdict where
  regionId : ℕ
  slotNumber : ℕ
  isOccupied : Bool
  detection : Option Detection
deriving DecidableEq, Repr

/-- Python `max(region_vehicles, key=overlap)`: the first element attaining
the maximal overlap with the region rectangle (later elements replace the
running best only on strictly larger overlap). -/
def maxByOverlap (r : Rect) : List Detection → Option Detection
  | [] => none
  | d :: rest => some (rest.foldl
      (fun best x =>
        if calculate_iou r x.bbox > calculate_iou r best.bbox then x else best) d)

/-- Body of the per-region loop of `ParkingDetector.detect_in_regions`:
keep the detections overlapping the region by more than `0.3` and associate
the region with the maximum-overlap one. -/
def regionAssoc (dets : List Detection) (region : Slot) : RegionVerdict :=
  let region_vehicles := dets.filter (fun d => calculate_iou region.rect d.bbox > 3/10)
  match maxByOverlap region.rect region_vehicles with
  | some best => ⟨region.id, region.slotNumber, true, some best⟩
  | none => ⟨region.id, region.slotNumber, false, none⟩

/-- Embedding of `ParkingDetector.detect_in_regions`. -/
def detect_in_regions (dets : List Detection) (regions : List Slot) : List RegionVerdict :=
  regions.map (regionAssoc dets)

lemma occStep_occ_mono (r : Rect) (s : OccState) (d : Detection)
    (h : s.isOccupied = true) : (occStep r s d).isOccupied = true := by
  unfold occStep
  split
  · rfl
  · exact h

lemma occFold_occ_mono (r : Rect) (dets : List Detection) (s : OccState)
    (h : s.isOccupied = true) : (dets.foldl (occStep r) s).isOccupied = true := by
  induction dets generalizing s with
  | nil => exact h
  | cons d rest ih => exact ih _ (occStep_occ_mono r s d h)

lemma occFold_cases (r : Rect) (dets : List Detection) (s : OccState) :
    dets.foldl (occStep r) s = s ∨
      ∃ d ∈ dets, calculate_iou r d.bbox > 1/2 ∧
        dets.foldl (occStep r) s = ⟨true, d.confidence, some d.cls, some d.bbox⟩ := by
  induction dets generalizing s with
  | nil => exact Or.inl rfl
  | cons d rest ih =>
    rw [List.foldl_cons]
    by_cases hc : calculate_iou r d.bbox > 1/2 ∧ d.confidence > s.bestConfidence
    · have hstep : occStep r s d = ⟨true, d.confidence, some d.cls, some d.bbox⟩ := by
        unfold occStep
        rw [if_pos hc]
      rcases ih (occStep r s d) with h | ⟨d', hd', ho', he'⟩
      · exact Or.inr ⟨d, List.mem_cons_self _ _, hc.1, by rw [h, hstep]⟩
      · exact Or.inr ⟨d', List.mem_cons_of_mem _ hd', ho', he'⟩
    · have hstep : occStep r s d = s := by
        unfold occStep
        rw [if_neg hc]
      rw [hstep]
      rcases ih s with h | ⟨d', hd', ho', he'⟩
      · exact Or.inl h
      · exact Or.inr ⟨d', List.mem_cons_of_mem _ hd', ho', he'⟩

lemma occFold_occupied_iff (r : Rect) (dets : List Detection) (s : OccState) :
    (dets.foldl (occStep r) s).isOccupied = true ↔
      s.isOccupied = true ∨
        ∃ d ∈ dets, calculate_iou r d.bbox > 1/2 ∧ d.confidence > s.bestConfidence := by
  induction dets generalizing s with
  | nil => simp
  | cons d rest ih =>
    rw [List.foldl_cons]
    by_cases hc : calculate_iou r d.bbox > 1/2 ∧ d.confidence > s.bestConfidence
    · have hstep : occStep r s d = ⟨true, d.confidence, some d.cls, some d.bbox⟩ := by
        unfold occStep
        rw [if_pos hc]
      constructor
      · intro _
        exact Or.inr ⟨d, List.mem_cons_self _ _, hc⟩
      · intro _
        rw [hstep]
        exact occFold_occ_mono r rest _ rfl
    · have hstep : occStep r s d = s := by
        unfold occStep
        rw [if_neg hc]
      rw [hstep, ih s]
      constructor
      · rintro (h | ⟨d', hd', h1, h2⟩)
        · exact Or.inl h
        · exact Or.inr ⟨d', List.mem_cons_of_mem _ hd', h1, h2⟩
      · rintro (h | ⟨d', hd', h1, h2⟩)
        · exact Or.inl h
        · rcases List.mem_cons.mp hd' with rfl | hmem
          · exact absurd ⟨h1, h2⟩ hc
          · exact Or.inr ⟨d', hmem, h1, h2⟩

lemma occFold_best (r : Rect) (dets : List Detection) (s : OccState) :
    (dets.foldl (occStep r) s).bestConfidence =
      (dets.filter (fun d => calculate_iou r d.bbox > 1/2)).foldl
        (fun m d => max m d.confidence) s.bestConfidence := by
  induction dets generalizing s with
  | nil => rfl
  | cons d rest ih =>
    rw [List.foldl_cons]
    by_cases hover : calculate_iou r d.bbox > 1/2
    · rw [List.filter_cons_of_pos (by simpa using hover), List.foldl_cons]
      by_cases hconf : d.confidence > s.bestConfidence
      · have hstep : occStep r s d = ⟨true, d.confidence, some d.cls, some d.bbox⟩ := by
          unfold occStep
          rw [if_pos ⟨hover, hconf⟩]
        rw [hstep, ih]
        have hmax : max s.bestConfidence d.confidence = d.confidence :=
          max_eq_right (le_of_lt hconf)
        rw [hmax]
      · have hstep : occStep r s d = s := by
          unfold occStep
          rw [if_neg (by intro h; exact hconf h.2)]
        rw [hstep, ih]
        have hmax : max s.bestConfidence d.confidence = s.bestConfidence :=
          max_eq_left (le_of_not_lt hconf)
        rw [hmax]
    · rw [List.filter_cons_of_neg (by simpa using hover)]
      have hstep : occStep r s d = s := by
        unfold occStep
        rw [if_neg (by intro h; exact hover h.1)]
      rw [hstep, ih]

lemma confFold_init_le (m : ℚ) (l : List Detection) :
    m ≤ l.foldl (fun m d => max m d.confidence) m := by
  induction l generalizing m with
  | nil => exact le_refl m
  | cons d rest ih => exact le_trans (le_max_left m d.confidence) (ih _)

lemma confFold_mem_le (m : ℚ) (l : List Detection) (d : Detection) (hd : d ∈ l) :
    d.confidence ≤ l.foldl (fun m d => max m d.confidence) m := by
  induction l generalizing m with
  | nil => cases hd
  | cons a rest ih =>
    rcases List.mem_cons.mp hd with rfl | hmem
    · exact le_trans (le_max_right m d.confidence) (confFold_init_le _ rest)
    · exact ih _ hmem

lemma overlapFoldBest (r : Rect) (rest : List Detection) (cur : Detection) :
    (rest.foldl
        (fun best x =>
          if calculate_iou r x.bbox > calculate_iou r best.bbox then x else best) cur) ∈
        cur :: rest ∧
    calculate_iou r cur.bbox ≤
      calculate_iou r (rest.foldl
        (fun best x =>
          if calculate_iou r x.bbox > calculate_iou r best.bbox then x else best) cur).bbox ∧
    ∀ x ∈ rest, calculate_iou r x.bbox ≤
      calculate_iou r (rest.foldl
        (fun best x =>
          if calculate_iou r x.bbox > calculate_iou r best.bbox then x else best) cur).bbox := by
  induction rest generalizing cur with
  | nil => exact ⟨List.mem_cons_self _ _, le_refl _, fun x hx => absurd hx (List.not_mem_nil x)⟩
  | cons a rest ih =>
    rw [List.foldl_cons]
    obtain ⟨ihmem, ihcur, ihall⟩ :=
      ih (if calculate_iou r a.bbox > calculate_iou r cur.bbox then a else cur)
    by_cases hcmp : calculate_iou r a.bbox > calculate_iou r cur.bbox
    · rw [if_pos hcmp] at ihmem ihcur ihall ⊢
      refine ⟨?_, le_trans (le_of_lt hcmp) ihcur, ?_⟩
      · rcases List.mem_cons.mp ihmem with h | h
        · rw [h]
          exact List.mem_cons_of_mem _ (List.mem_cons_self _ _)
        · exact List.mem_cons_of_mem _ (List.mem_cons_of_mem _ h)
      · intro x hx
        rcases List.mem_cons.mp hx with rfl | hmem
        · exact ihcur
        · exact ihall x hmem
    · rw [if_neg hcmp] at ihmem ihcur ihall ⊢
      refine ⟨?_, ihcur, ?_⟩
      · rcases List.mem_cons.mp ihmem with h | h
        · rw [h]
          exact List.mem_cons_self _ _
        · exact List.mem_cons_of_mem _ (List.mem_cons_of_mem _ h)
      · intro x hx
        rcases List.mem_cons.mp hx with rfl | hmem
        · exact le_trans (le_of_not_lt hcmp) ihcur
        · exact ihall x hmem

lemma maxByOverlap_spec (r : Rect) (l : List Detection) (hl : l ≠ []) :
    ∃ b, maxByOverlap r l = some b ∧ b ∈ l ∧
      ∀ x ∈ l, calculate_iou r x.bbox ≤ calculate_iou r b.bbox := by
  cases l with
  | nil => exact absurd rfl hl
  | cons d rest =>
    obtain ⟨hmem, hcur, hall⟩ := overlapFoldBest r rest d
    refine ⟨_, rfl, hmem, ?_⟩
    intro x hx
    rcases List.mem_cons.mp hx with rfl | hmem2
    · exact hcur
    · exact hall x hmem2

lemma regionAssoc_def (dets : List Detection) (region : Slot) :
    regionAssoc dets region =
      match maxByOverlap region.rect
          (dets.filter (fun d => calculate_iou region.rect d.bbox > 3/10)) with
      | some best => ⟨region.id, region.slotNumber, true, some best⟩
      | none => ⟨region.id, region.slotNumber, false, none⟩ := rfl

lemma regionAssoc_occupied_iff (dets : List Detection) (region : Slot) :
    (regionAssoc dets region).isOccupied = true ↔
      ∃ d ∈ dets, calculate_iou region.rect d.bbox > 3/10 := by
  rw [regionAssoc_def]
  cases hfl : dets.filter (fun d => calculate_iou region.rect d.bbox > 3/10) with
  | nil =>
    simp only [maxByOverlap]
    constructor
    · intro h
      exact absurd h (by simp)
    · rintro ⟨d, hd, hover⟩
      have hmem : d ∈ dets.filter (fun d => calculate_iou region.rect d.bbox > 3/10) :=
        List.mem_filter.mpr ⟨hd, by simpa using hover⟩
      rw [hfl] at hmem
      cases hmem
  | cons a rest =>
    simp only [maxByOverlap]
    have hmem : a ∈ dets.filter (fun d => calculate_iou region.rect d.bbox > 3/10) := by
      rw [hfl]
      exact List.mem_cons_self _ _
    obtain ⟨hadets, hapred⟩ := List.mem_filter.mp hmem
    simp only [true_iff]
    exact ⟨a, hadets, by simpa using hapred⟩

lemma regionAssoc_detection_spec (dets : List Detection) (region : Slot) (b : Detection)
    (hb : (regionAssoc dets region).detection = some b) :
    b ∈ dets ∧ calculate_iou region.rect b.bbox > 3/10 ∧
      ∀ x ∈ dets, calculate_iou region.rect x.bbox > 3/10 →
        calculate_iou region.rect x.bbox ≤ calculate_iou region.rect b.bbox := by
  rw [regionAssoc_def] at hb
  cases hfl : dets.filter (fun d => calculate_iou region.rect d.bbox > 3/10) with
  | nil =>
    rw [hfl] at hb
    simp only [maxByOverlap] at hb
    cases hb
  | cons a rest =>
    rw [hfl] at hb
    obtain ⟨b', hb', hbmem, hball⟩ := maxByOverlap_spec region.rect (a :: rest) (by simp)
    rw [hb'] at hb
    simp only [Option.some.injEq] at hb
    subst hb
    rw [← hfl] at hbmem hball
    obtain ⟨hbdets, hbpred⟩ := List.mem_filter.mp hbmem
    refine ⟨hbdets, by simpa using hbpred, ?_⟩
    intro x hx hxover
    exact hball x (List.mem_filter.mpr ⟨hx, by simpa using hxover⟩)

/-- C2 counterexample: slot `(0,0,10,10)` with two qualifying detections —
`(0,0,10,10)` at confidence `0.6` (overlap 1) and `(0,0,10,12)` at confidence
`0.8` (overlap `5/6`). The claim says the highest-overlap detection is kept as
the representative; the code keeps the highest-confidence one, so the recorded
box is the lower-overlap `(0,0,10,12)`. -/
theorem slotOccupancy_representative_counterexample :
    calculate_iou ⟨0, 0, 10, 10⟩ ⟨0, 0, 10, 10⟩ >
      calculate_iou ⟨0, 0, 10, 10⟩ ⟨0, 0, 10, 12⟩ ∧
    calculate_iou ⟨0, 0, 10, 10⟩ ⟨0, 0, 10, 12⟩ > 1/2 ∧
    (analyzeSlotOccupancy
        ⟨[⟨⟨0, 0, 10, 10⟩, 6/10, "car"⟩, ⟨⟨0, 0, 10, 12⟩, 8/10, "truck"⟩],
          fun _ => ⟨false, 0, 0, 0⟩⟩
        ⟨1, 1, ⟨0, 0, 10, 10⟩⟩).detectionBox = some ⟨0, 0, 10, 12⟩ ∧
    (analyzeSlotOccupancy
        ⟨[⟨⟨0, 0, 10, 10⟩, 6/10, "car"⟩, ⟨⟨0, 0, 10, 12⟩, 8/10, "truck"⟩],
          fun _ => ⟨false, 0, 0, 0⟩⟩
        ⟨1, 1, ⟨0, 0, 10, 10⟩⟩).confidence = 8/10 := by
  have h1 : calculate_iou ⟨0, 0, 10, 10⟩ ⟨0, 0, 10, 10⟩ = 1 := by
    norm_num [calculate_iou, max_def, min_def]
  have h2 : calculate_iou ⟨0, 0, 10, 10⟩ ⟨0, 0, 10, 12⟩ = 5/6 := by
    norm_num [calculate_iou, max_def, min_def]
  refine ⟨by rw [h1, h2]; norm_num, by rw [h2]; norm_num, ?_, ?_⟩ <;>
  · simp only [analyzeSlotOccupancy, occLoop, occStep, initOccState,
      List.foldl_cons, List.foldl_nil]
    rw [h1, h2]
    norm_num

/-- C2 (amended): the slot is marked occupied on the primary path iff some
detection overlaps the slot by more than `0.5` and has positive confidence;
the representative detection recorded in the verdict is then a qualifying
detection of maximal confidence (not maximal overlap); the region-association
variant (`detect_in_regions`) uses threshold `0.3` and keeps the
maximum-overlap detection. -/
theorem slotOccupancy_classifier_spec (frame : Frame) (slot : Slot) :
    ((occLoop slot.rect frame.detections).isOccupied = true ↔
      ∃ d ∈ frame.detections, calculate_iou slot.rect d.bbox > 1/2 ∧ 0 < d.confidence) ∧
    ((occLoop slot.rect frame.detections).isOccupied = true →
      ∃ d ∈ frame.detections,
        calculate_iou slot.rect d.bbox > 1/2 ∧
        (analyzeSlotOccupancy frame slot).isOccupied = true ∧
        (analyzeSlotOccupancy frame slot).confidence = d.confidence ∧
        (analyzeSlotOccupancy frame slot).vehicleType = some d.cls ∧
        (analyzeSlotOccupancy frame slot).detectionBox = some d.bbox ∧
        ∀ x ∈ frame.detections, calculate_iou slot.rect x.bbox > 1/2 →
          x.confidence ≤ d.confidence) ∧
    ((regionAssoc frame.detections slot).isOccupied = true ↔
      ∃ d ∈ frame.detections, calculate_iou slot.rect d.bbox > 3/10) ∧
    (∀ b, (regionAssoc frame.detections slot).detection = some b →
      b ∈ frame.detections ∧ calculate_iou slot.rect b.bbox > 3/10 ∧
      ∀ x ∈ frame.detections, calculate_iou slot.rect x.bbox > 3/10 →
        calculate_iou slot.rect x.bbox ≤ calculate_iou slot.rect b.bbox) := by
  refine ⟨?_, ?_, regionAssoc_occupied_iff frame.detections slot,
    fun b hb => regionAssoc_detection_spec frame.detections slot b hb⟩
  · have h1 : (occLoop slot.rect frame.detections).isOccupied = true ↔
        initOccState.isOccupied = true ∨ ∃ d ∈ frame.detections,
          calculate_iou slot.rect d.bbox > 1/2 ∧ d.confidence > initOccState.bestConfidence :=
      occFold_occupied_iff slot.rect frame.detections initOccState
    simpa only [initOccState, Bool.false_eq_true, false_or] using h1
  · intro hocc
    have hA : analyzeSlotOccupancy frame slot =
        ⟨slot.id, slot.slotNumber, true, (occLoop slot.rect frame.detections).bestConfidence,
          (occLoop slot.rect frame.detections).vehicleType,
          (occLoop slot.rect frame.detections).detectionBox⟩ := by
      simp only [analyzeSlotOccupancy]
      rw [if_pos hocc]
    rcases occFold_cases slot.rect frame.detections initOccState with he | ⟨d, hd, hover, he⟩
    · have : (occLoop slot.rect frame.detections).isOccupied = false := by
        have he' : occLoop slot.rect frame.detections = initOccState := he
        rw [he']
        rfl
      rw [this] at hocc
      cases hocc
    · have he' : occLoop slot.rect frame.detections =
          ⟨true, d.confidence, some d.cls, some d.bbox⟩ := he
      refine ⟨d, hd, hover, ?_, ?_, ?_, ?_, ?_⟩
      · rw [hA]
      · rw [hA, he']
      · rw [hA, he']
      · rw [hA, he']
      · intro x hx hxover
        have hbest : (occLoop slot.rect frame.detections).bestConfidence =
            (frame.detections.filter
              (fun d => calculate_iou slot.rect d.bbox > 1/2)).foldl
              (fun m d => max m d.confidence) initOccState.bestConfidence :=
          occFold_best slot.rect frame.detections initOccState
        rw [he'] at hbest
        have hxmem : x ∈ frame.detections.filter
            (fun d => calculate_iou slot.rect d.bbox > 1/2) :=
          List.mem_filter.mpr ⟨hx, by simpa using hxover⟩
        calc x.confidence
            ≤ (frame.detections.filter
                (fun d => calculate_iou slot.rect d.bbox > 1/2)).foldl
                (fun m d => max m d.confidence) initOccState.bestConfidence :=
              confFold_mem_le _ _ x hxmem
          _ = d.confidence := hbest.symm

/-- Concrete slot used by the classifier witnesses. -/
def exSlot : Slot := ⟨1, 1, ⟨0, 0, 10, 10⟩⟩

/-- Concrete detection used by the classifier witnesses: coincides exactly
with the slot rectangle of `exSlot`, confidence `0.9`. -/
def exDet : Detection := ⟨⟨0, 0, 10, 10⟩, 9/10, "car"⟩

/-- Concrete frame used by the classifier witnesses. -/
def exFrame : Frame := ⟨[exDet], fun _ => ⟨false, 0, 0, 0⟩⟩

/-- Witness for C2 at a concrete frame and slot: one detection matching the
slot exactly with confidence `0.9` is marked occupied, kept as the
representative, and kept by the region-association variant. -/
theorem slotOccupancy_classifier_spec_witness :
    (occLoop exSlot.rect exFrame.detections).isOccupied = true ∧
    (∃ d ∈ exFrame.detections,
        calculate_iou exSlot.rect d.bbox > 1/2 ∧
        (analyzeSlotOccupancy exFrame exSlot).isOccupied = true ∧
        (analyzeSlotOccupancy exFrame exSlot).confidence = d.confidence ∧
        (analyzeSlotOccupancy exFrame exSlot).vehicleType = some d.cls ∧
        (analyzeSlotOccupancy exFrame exSlot).detectionBox = some d.bbox ∧
        ∀ x ∈ exFrame.detections, calculate_iou exSlot.rect x.bbox > 1/2 →
          x.confidence ≤ d.confidence) ∧
    (exDet ∈ exFrame.detections ∧ calculate_iou exSlot.rect exDet.bbox > 3/10 ∧
      ∀ x ∈ exFrame.detections, calculate_iou exSlot.rect x.bbox > 3/10 →
        calculate_iou exSlot.rect x.bbox ≤ calculate_iou exSlot.rect exDet.bbox) :=
  ⟨by
    simp only [exSlot, exFrame, exDet, occLoop, occStep, initOccState,
      List.foldl_cons, List.foldl_nil]
    norm_num [calculate_iou, max_def, min_def],
   (slotOccupancy_classifier_spec exFrame exSlot).2.1 (by
    simp only [exSlot, exFrame, exDet, occLoop, occStep, initOccState,
      List.foldl_cons, List.foldl_nil]
    norm_num [calculate_iou, max_def, min_def]),
   (slotOccupancy_classifier_spec exFrame exSlot).2.2.2 exDet (by
    simp only [exSlot, exFrame, exDet, regionAssoc, maxByOverlap, List.foldl_nil]
    norm_num [calculate_iou, max_def, min_def, List.filter])⟩

/-- C10: whenever the detection loop of `_analyze_slot_occupancy` ends without
marking the slot occupied (so occupancy is decided by the pixel-heuristic
fallback), the returned verdict carries `vehicle_type = None` and
`detection_box = None`, its confidence is the fallback image score, and it is
occupied iff that score exceeds `0.6`. -/
theorem fallback_verdict_fields (frame : Frame) (slot : Slot)
    (h : (occLoop slot.rect frame.detections).isOccupied = false) :
    (analyzeSlotOccupancy frame slot).vehicleType = none ∧
    (analyzeSlotOccupancy frame slot).detectionBox = none ∧
    (analyzeSlotOccupancy frame slot).confidence =
      analyzeSlotImage (frame.crop slot.rect) ∧
    ((analyzeSlotOccupancy frame slot).isOccupied = true ↔
      analyzeSlotImage (frame.crop slot.rect) > 6/10) := by
  have hinit : occLoop slot.rect frame.detections = initOccState := by
    rcases occFold_cases slot.rect frame.detections initOccState with he | ⟨d, _, _, he⟩
    · exact he
    · have he' : occLoop slot.rect frame.detections =
          ⟨true, d.confidence, some d.cls, some d.bbox⟩ := he
      rw [he'] at h
      cases h
  have hA : analyzeSlotOccupancy frame slot =
      ⟨slot.id, slot.slotNumber,
        decide (analyzeSlotImage (frame.crop slot.rect) > 6/10),
        analyzeSlotImage (frame.crop slot.rect),
        (occLoop slot.rect frame.detections).vehicleType,
        (occLoop slot.rect frame.detections).detectionBox⟩ := by
    simp only [analyzeSlotOccupancy]
    rw [if_neg (by rw [h]; simp)]
  rw [hA, hinit]
  exact ⟨rfl, rfl, rfl, by simp⟩

/-- Witness for C10: an empty detection list with a high-texture dark crop —
the fallback marks the slot occupied with score 1 while leaving
`vehicle_type` and `detection_box` empty. -/
theorem fallback_verdict_fields_witness :
    (occLoop (⟨0, 0, 10, 10⟩ : Rect) ([] : List Detection)).isOccupied = false ∧
    (analyzeSlotOccupancy ⟨[], fun _ => ⟨false, 1, 1000, 0⟩⟩
      ⟨1, 1, ⟨0, 0, 10, 10⟩⟩).isOccupied = true ∧
    (analyzeSlotOccupancy ⟨[], fun _ => ⟨false, 1, 1000, 0⟩⟩
      ⟨1, 1, ⟨0, 0, 10, 10⟩⟩).vehicleType = none ∧
    (analyzeSlotOccupancy ⟨[], fun _ => ⟨false, 1, 1000, 0⟩⟩
      ⟨1, 1, ⟨0, 0, 10, 10⟩⟩).detectionBox = none :=
  ⟨rfl, by
    simp only [analyzeSlotOccupancy, occLoop, List.foldl_nil, initOccState,
      analyzeSlotImage]
    norm_num [min_def],
   (fallback_verdict_fields ⟨[], fun _ => ⟨false, 1, 1000, 0⟩⟩
     ⟨1, 1, ⟨0, 0, 10, 10⟩⟩ rfl).1,
   (fallback_verdict_fields ⟨[], fun _ => ⟨false, 1, 1000, 0⟩⟩
     ⟨1, 1, ⟨0, 0, 10, 10⟩⟩ rfl).2.1⟩

/-- One timeline entry appended by `_process_duration_analysis`:
frame index, occupancy flag, confidence. -/
structure TimelineEntry where
  frame : ℕ
  isOccupied : Bool
  confidence : ℚ
deriving DecidableEq, Repr

/-- Result dictionary of `_analyze_slot_duration`. -/
structure DurationResult where
  finalStatus : Bool
  confidence : ℚ
  predictedDuration : ℤ
  changes : ℕ
  stability : ℚ
deriving DecidableEq, Repr

/-- The change-counting loop of `_analyze_slot_duration`: walks the tail of
the timeline keeping the previous status, incrementing on each flip (the
previous status is replaced only when a flip is seen, as in the code). -/
def countChangesLoop : List TimelineEntry → Bool → ℕ
  | [], _ => 0
  | e :: rest, prev =>
    if e.isOccupied ≠ prev then 1 + countChangesLoop rest e.isOccupied
    else countChangesLoop rest prev

/-- Embedding of `VideoProcessor._analyze_slot_duration`. -/
def analyzeSlotDuration (timeline : List TimelineEntry) : DurationResult :=
  match timeline with
  | [] => ⟨false, 1/2, 1800, 0, 0⟩
  | t0 :: rest =>
    let n := (t0 :: rest).length
    let changes := countChangesLoop rest t0.isOccupied
    let stability := max 0 (1 - (changes : ℚ) / (n : ℚ))
    let occupied_count := (t0 :: rest).countP (fun e => e.isOccupied)
    let final_status : Bool := (occupied_count : ℚ) > (n : ℚ) / 2
    let predicted_duration : ℤ :=
      if final_status then (if stability > 8/10 then 3600 else 1800) else 0
    let avg_confidence := ((t0 :: rest).map (fun e => e.confidence)).sum / (n : ℚ)
    ⟨final_status, avg_confidence * stability, predicted_duration, changes, stability⟩

/-- Reference change count from the spec wording: the number of adjacent
timeline pairs whose `is_occupied` values differ. -/
def adjacentChanges (tl : List TimelineEntry) : ℕ :=
  (tl.zip tl.tail).countP (fun p => p.1.isOccupied != p.2.isOccupied)

/-- Reference stability from the spec wording:
`max(0, 1 - changes/len)`, 0 on the empty timeline. -/
def specStability : List TimelineEntry → ℚ
  | [] => 0
  | t0 :: rest => max 0 (1 - (adjacentChanges (t0 :: rest) : ℚ) / ((t0 :: rest).length : ℚ))

/-- Reference final status from the spec wording: occupied iff strictly more
than half of the entries are occupied (false on the empty timeline). -/
def specFinal (tl : List TimelineEntry) : Bool :=
  2 * tl.countP (fun e => e.isOccupied) > tl.length

/-- Reference predicted duration from the spec wording: 3600 when occupied
and stability exceeds `0.8`, 1800 when occupied otherwise, 0 when unoccupied,
and the default placeholder 1800 on the empty timeline. -/
def specPredicted : List TimelineEntry → ℤ
  | [] => 1800
  | t0 :: rest =>
    if specFinal (t0 :: rest) then
      (if specStability (t0 :: rest) > 8/10 then 3600 else 1800)
    else 0

/-- Reference confidence from the spec wording: mean per-entry confidence
multiplied by stability, `0.5` on the empty timeline. -/
def specConfidence : List TimelineEntry → ℚ
  | [] => 1/2
  | t0 :: rest =>
    (((t0 :: rest).map (fun e => e.confidence)).sum / ((t0 :: rest).length : ℚ)) *
      specStability (t0 :: rest)

/-- Reference estimate assembled from the spec wording of §4.5. -/
def durationSpecEstimate (tl : List TimelineEntry) : DurationResult :=
  ⟨specFinal tl, specConfidence tl, specPredicted tl, adjacentChanges tl, specStability tl⟩

lemma countChangesLoop_eq_zip (rest : List TimelineEntry) (prev : Bool)
    (e : TimelineEntry) (he : e.isOccupied = prev) :
    countChangesLoop rest prev =
      ((e :: rest).zip rest).countP (fun p => p.1.isOccupied != p.2.isOccupied) := by
  induction rest generalizing prev e with
  | nil => rfl
  | cons a rest ih =>
    rw [List.zip_cons_cons, List.countP_cons]
    by_cases hflip : a.isOccupied ≠ prev
    · rw [countChangesLoop, if_pos hflip]
      have hp : ((e, a).1.isOccupied != (e, a).2.isOccupied) = true := by
        simp only [bne_iff_ne, ne_eq, he]
        exact fun hcontra => hflip hcontra.symm
      simp only [hp, if_true, ih a.isOccupied a rfl]
      omega
    · rw [countChangesLoop, if_neg hflip]
      push_neg at hflip
      have hp : ((e, a).1.isOccupied != (e, a).2.isOccupied) = false := by
        simp only [bne_eq_false_iff_eq, he]
        exact hflip.symm
      simp only [hp, ih prev a hflip]
      simp

lemma count_half_iff (c n : ℕ) : (c : ℚ) > (n : ℚ) / 2 ↔ 2 * c > n := by
  rw [gt_iff_lt, div_lt_iff₀ (by norm_num : (0:ℚ) < 2), gt_iff_lt, mul_comm]
  exact_mod_cast Iff.rfl

/-- C1: for every slot timeline, `_analyze_slot_duration` returns exactly the
reference estimate of the spec — adjacent-flip change count, stability
`max(0, 1 - changes/len)`, strict-majority final status, the two-tier
1800/3600 predicted duration (0 when unoccupied), confidence = mean per-entry
confidence times stability, and the documented defaults on the empty
timeline; in particular any 7-entry timeline with 4 occupied entries yields
`final_status = true`. -/
theorem analyzeSlotDuration_matches_reference (tl : List TimelineEntry) :
    analyzeSlotDuration tl = durationSpecEstimate tl ∧
    (tl.length = 7 → tl.countP (fun e => e.isOccupied) = 4 →
      (analyzeSlotDuration tl).finalStatus = true) := by
  have hmain : analyzeSlotDuration tl = durationSpecEstimate tl := by
    cases tl with
    | nil => rfl
    | cons t0 rest =>
      have hch : countChangesLoop rest t0.isOccupied = adjacentChanges (t0 :: rest) := by
        rw [adjacentChanges, List.tail_cons]
        exact countChangesLoop_eq_zip rest t0.isOccupied t0 rfl
      have hfs : (decide (((t0 :: rest).countP (fun e => e.isOccupied) : ℚ) >
            ((t0 :: rest).length : ℚ) / 2)) = specFinal (t0 :: rest) := by
        rw [specFinal]
        exact decide_eq_decide.mpr (count_half_iff _ _)
      simp only [analyzeSlotDuration, durationSpecEstimate, specConfidence,
        specPredicted, specStability, hch, hfs]
  refine ⟨hmain, ?_⟩
  intro hlen hcount
  rw [hmain]
  show specFinal tl = true
  rw [specFinal, hlen, hcount]
  rfl

/-- Witness for C1: the concrete 7-entry timeline with 4 occupied entries is
reported occupied, with 5 flips, stability `2/7` and duration 1800. -/
theorem analyzeSlotDuration_matches_reference_witness :
    ([(⟨0, true, 9/10⟩ : TimelineEntry), ⟨15, false, 8/10⟩, ⟨30, true, 7/10⟩,
        ⟨45, false, 6/10⟩, ⟨60, true, 9/10⟩, ⟨75, false, 8/10⟩,
        ⟨90, true, 7/10⟩].length = 7) ∧
    ([(⟨0, true, 9/10⟩ : TimelineEntry), ⟨15, false, 8/10⟩, ⟨30, true, 7/10⟩,
        ⟨45, false, 6/10⟩, ⟨60, true, 9/10⟩, ⟨75, false, 8/10⟩,
        ⟨90, true, 7/10⟩].countP (fun e => e.isOccupied) = 4) ∧
    (analyzeSlotDuration
        [(⟨0, true, 9/10⟩ : TimelineEntry), ⟨15, false, 8/10⟩, ⟨30, true, 7/10⟩,
          ⟨45, false, 6/10⟩, ⟨60, true, 9/10⟩, ⟨75, false, 8/10⟩,
          ⟨90, true, 7/10⟩]).finalStatus = true :=
  ⟨rfl, rfl,
   (analyzeSlotDuration_matches_reference
       [(⟨0, true, 9/10⟩ : TimelineEntry), ⟨15, false, 8/10⟩, ⟨30, true, 7/10⟩,
         ⟨45, false, 6/10⟩, ⟨60, true, 9/10⟩, ⟨75, false, 8/10⟩,
         ⟨90, true, 7/10⟩]).2 rfl rfl⟩

/-- Per-slot record of the occupancy pass as consumed by the merge in
`_process_full_analysis` (`occupancy_results['slot_detections'][i]`). -/
structure OccSlotData where
  isOccupied : Bool
  confidence : ℚ
  vehicleType : Option String
  detectionBox : Option Rect
deriving DecidableEq, Repr

/-- Per-slot record of the duration pass as consumed by the merge;
`predicted_duration` and `stability_score` are read with `.get` defaults in
the code, so they are optional here. -/
structure DurSlotData where
  isOccupied : Bool
  confidence : ℚ
  predictedDuration : Option ℤ
  stabilityScore : Option ℚ
deriving DecidableEq, Repr

/-- Merged per-slot record built by `_process_full_analysis`. -/
structure FullSlotData where
  slotId : ℕ
  slotNumber : ℕ
  isOccupied : Bool
  confidence : ℚ
  predictedDuration : ℤ
  vehicleType : Option String
  detectionBox : Option Rect
  stabilityScore : ℚ
deriving DecidableEq, Repr

/-- Per-slot merge of `_process_full_analysis`: occupancy flag from the
occupancy pass, confidence as the max of the two passes, predicted duration
from the duration pass with default 1800 when absent, stability with default
`0.5` when absent. -/
def mergeFullSlot (slot : Slot) (o : OccSlotData) (d : DurSlotData) : FullSlotData :=
  ⟨slot.id, slot.slotNumber, o.isOccupied, max o.confidence d.confidence,
    d.predictedDuration.getD 1800, o.vehicleType, o.detectionBox,
    d.stabilityScore.getD (1/2)⟩

/-- The merge loop of `_process_full_analysis` over the aligned slot
configuration and the two passes' per-slot lists. -/
def mergeFullDetections : List Slot → List OccSlotData → List DurSlotData → List FullSlotData
  | s :: ss, o :: os, d :: ds => mergeFullSlot s o d :: mergeFullDetections ss os ds
  | _, _, _ => []

/-- Overall confidence of `_process_full_analysis`: average of the two
passes' overall confidence scores. -/
def fullOverallConfidence (occOverall durOverall : ℚ) : ℚ :=
  (occOverall + durOverall) / 2

lemma mergeFullDetections_length (slots : List Slot) (occ : List OccSlotData)
    (dur : List DurSlotData) (ho : occ.length = slots.length)
    (hd : dur.length = slots.length) :
    (mergeFullDetections slots occ dur).length = slots.length := by
  induction slots generalizing occ dur with
  | nil =>
    cases occ with
    | nil => rfl
    | cons o os => simp at ho
  | cons s ss ih =>
    cases occ with
    | nil => simp at ho
    | cons o os =>
      cases dur with
      | nil => simp at hd
      | cons d ds =>
        simp only [mergeFullDetections, List.length_cons]
        rw [ih os ds (by simpa using ho) (by simpa using hd)]

lemma mergeFullDetections_get (slots : List Slot) (occ : List OccSlotData)
    (dur : List DurSlotData) (i : ℕ) (h1 : i < slots.length) (h2 : i < occ.length)
    (h3 : i < dur.length) (h4 : i < (mergeFullDetections slots occ dur).length) :
    (mergeFullDetections slots occ dur).get ⟨i, h4⟩ =
      mergeFullSlot (slots.get ⟨i, h1⟩) (occ.get ⟨i, h2⟩) (dur.get ⟨i, h3⟩) := by
  induction slots generalizing occ dur i with
  | nil => simp at h1
  | cons s ss ih =>
    cases occ with
    | nil => simp at h2
    | cons o os =>
      cases dur with
      | nil => simp at h3
      | cons d ds =>
        cases i with
        | zero => rfl
        | succ i =>
          exact ih os ds i (by simpa using h1) (by simpa using h2)
            (by simpa using h3) (by simpa [mergeFullDetections] using h4)

/-- C4: in full analysis mode, for every slot of the configuration the merged
record takes `is_occupied` from the occupancy pass, its confidence is the max
of the two passes' confidences, its predicted duration comes from the
duration pass with default 1800 when absent, and the overall confidence is
the average of the two passes' overall scores. -/
theorem fullAnalysis_merge_spec (slots : List Slot) (occ : List OccSlotData)
    (dur : List DurSlotData) (occOverall durOverall : ℚ)
    (ho : occ.length = slots.length) (hd : dur.length = slots.length) :
    (mergeFullDetections slots occ dur).length = slots.length ∧
    (∀ i (hi : i < slots.length),
      ((mergeFullDetections slots occ dur).get
          ⟨i, by rw [mergeFullDetections_length slots occ dur ho hd]; exact hi⟩).isOccupied =
        (occ.get ⟨i, by omega⟩).isOccupied ∧
      ((mergeFullDetections slots occ dur).get
          ⟨i, by rw [mergeFullDetections_length slots occ dur ho hd]; exact hi⟩).confidence =
        max (occ.get ⟨i, by omega⟩).confidence (dur.get ⟨i, by omega⟩).confidence ∧
      ((mergeFullDetections slots occ dur).get
          ⟨i, by rw [mergeFullDetections_length slots occ dur ho hd]; exact hi⟩).predictedDuration =
        ((dur.get ⟨i, by omega⟩).predictedDuration).getD 1800) ∧
    fullOverallConfidence occOverall durOverall = (occOverall + durOverall) / 2 := by
  refine ⟨mergeFullDetections_length slots occ dur ho hd, ?_, rfl⟩
  intro i hi
  rw [mergeFullDetections_get slots occ dur i hi (by omega) (by omega)]
  exact ⟨rfl, rfl, rfl⟩

/-- Witness for C4: a one-slot configuration with occupancy-pass confidence
`0.6` and duration-pass confidence `0.9` merges to confidence exactly `0.9`. -/
theorem fullAnalysis_merge_spec_witness :
    ((mergeFullDetections [⟨1, 1, ⟨0, 0, 10, 10⟩⟩] [⟨true, 6/10, none, none⟩]
        [⟨true, 9/10, some 2400, some 1⟩]).get
        ⟨0, by norm_num [mergeFullDetections]⟩).confidence = 9/10 := by
  have hc := ((fullAnalysis_merge_spec [⟨1, 1, ⟨0, 0, 10, 10⟩⟩]
    [⟨true, 6/10, none, none⟩] [⟨true, 9/10, some 2400, some 1⟩]
    (17/20) (4/5) rfl rfl).2.1 0 (by norm_num)).2.1
  exact hc.trans (by norm_num [max_def])

/-- Frame-sampling interval of `_process_occupancy_analysis`
(process every 30th frame). -/
def occupancyFrameInterval : ℕ := 30

/-- Frame-sampling interval of `_process_duration_analysis`
(process every 15th frame). -/
def durationFrameInterval : ℕ := 15

/-- The frame indices the sequential read loop hands to the detector and the
classifier: those `frame_count` values below the frame total satisfying
`frame_count % frame_interval == 0`. -/
def sampledIndices (totalFrames interval : ℕ) : List ℕ :=
  (List.range totalFrames).filter (fun i => i % interval == 0)

/-- The sampled frames themselves, in sequential read order. -/
def sampledFrames (frames : List Frame) (interval : ℕ) : List Frame :=
  (frames.enum.filter (fun p => p.1 % interval == 0)).map Prod.snd

lemma enumFrom_filter_length (n : ℕ) (frames : List Frame) : ∀ (k : ℕ),
    ((List.enumFrom k frames).filter (fun p => p.1 % n == 0)).length =
      ((List.range' k frames.length).filter (fun i => i % n == 0)).length := by
  induction frames with
  | nil => intro k; rfl
  | cons f fs ih =>
    intro k
    simp only [List.enumFrom, List.length_cons, List.range'_succ, List.filter_cons]
    cases hk : (k % n == 0) with
    | true => simp [ih (k + 1)]
    | false => simp [ih (k + 1)]

lemma sampledFrames_length (frames : List Frame) (n : ℕ) :
    (sampledFrames frames n).length = (sampledIndices frames.length n).length := by
  rw [sampledFrames, sampledIndices, List.length_map, List.enum,
    List.range_eq_range']
  exact enumFrom_filter_length n frames 0

/-- C6: the read loop hands exactly the frames at indices divisible by the
sampling interval to the detector and classifier (interval 30 in occupancy
mode, 15 in duration mode); a 300-frame video sampled every 30 frames
processes exactly the 10 frames 0, 30, ..., 270. -/
theorem frame_sampling_spec (total interval i : ℕ) (frames : List Frame) :
    occupancyFrameInterval = 30 ∧
    durationFrameInterval = 15 ∧
    (i ∈ sampledIndices total interval ↔ i < total ∧ i % interval = 0) ∧
    (sampledFrames frames interval).length =
      (sampledIndices frames.length interval).length ∧
    sampledIndices 300 occupancyFrameInterval =
      [0, 30, 60, 90, 120, 150, 180, 210, 240, 270] ∧
    (sampledIndices 300 occupancyFrameInterval).length = 10 := by
  refine ⟨rfl, rfl, ?_, sampledFrames_length frames interval, by decide, by decide⟩
  rw [sampledIndices]
  simp [List.mem_filter, List.mem_range]

/-- Find-first-and-update step of `_process_occupancy_analysis`: the first
retained verdict with the same `slot_id` is replaced when the new verdict has
strictly higher confidence; with no retained verdict for that slot, the new
verdict is appended at the end. -/
def occUpdate : List Verdict → Verdict → List Verdict
  | [], v => [v]
  | w :: rest, v =>
    if w.slotId = v.slotId then
      (if v.confidence > w.confidence then v else w) :: rest
    else w :: occUpdate rest v

/-- One sampled frame of `_process_occupancy_analysis`: classify every slot
of the configuration and fold the verdicts into the retained list. -/
def processFrameVerdicts (slots : List Slot) (acc : List Verdict) (frame : Frame) :
    List Verdict :=
  slots.foldl (fun a slot => occUpdate a (analyzeSlotOccupancy frame slot)) acc

/-- The aggregation loop of `_process_occupancy_analysis` over the sampled
frames; the retained list starts empty. -/
def occupancyAggregate (slots : List Slot) (frames : List Frame) : List Verdict :=
  frames.foldl (processFrameVerdicts slots) []

/-- `_process_occupancy_analysis` composed with the §4.4 sampling: only every
30th frame of the video is classified and aggregated. -/
def processOccupancyAnalysis (slots : List Slot) (frames : List Frame) : List Verdict :=
  occupancyAggregate slots (sampledFrames frames occupancyFrameInterval)

/-- The overwrite-if-better rule seen by a single slot. -/
def keepBetter (w v : Verdict) : Verdict :=
  if v.confidence > w.confidence then v else w

lemma analyzeSlotOccupancy_slotId (frame : Frame) (slot : Slot) :
    (analyzeSlotOccupancy frame slot).slotId = slot.id := by
  simp only [analyzeSlotOccupancy]
  split <;> rfl

lemma occUpdate_filter_ne (acc : List Verdict) (v : Verdict) (i : ℕ)
    (h : v.slotId ≠ i) :
    (occUpdate acc v).filter (fun w => w.slotId = i) =
      acc.filter (fun w => w.slotId = i) := by
  induction acc with
  | nil =>
    rw [occUpdate, List.filter_cons_of_neg (by simpa using h)]
  | cons w rest ih =>
    rw [occUpdate]
    by_cases hw : w.slotId = v.slotId
    · rw [if_pos hw]
      have hwi : ¬(w.slotId = i) := by rw [hw]; exact h
      by_cases hc : v.confidence > w.confidence
      · rw [if_pos hc, List.filter_cons_of_neg (by simpa using h),
          List.filter_cons_of_neg (by simpa using hwi)]
      · rw [if_neg hc]
    · rw [if_neg hw]
      by_cases hwi : w.slotId = i
      · rw [List.filter_cons_of_pos (by simpa using hwi),
          List.filter_cons_of_pos (by simpa using hwi), ih]
      · rw [List.filter_cons_of_neg (by simpa using hwi),
          List.filter_cons_of_neg (by simpa using hwi), ih]

lemma occUpdate_filter_nil (acc : List Verdict) (v : Verdict) (i : ℕ)
    (h : v.slotId = i) (hnil : acc.filter (fun w => w.slotId = i) = []) :
    (occUpdate acc v).filter (fun w => w.slotId = i) = [v] := by
  induction acc with
  | nil =>
    rw [occUpdate, List.filter_cons_of_pos (by simpa using h)]
    rfl
  | cons w rest ih =>
    have hwi : ¬(w.slotId = i) := by
      intro hcontra
      rw [List.filter_cons_of_pos (by simpa using hcontra)] at hnil
      cases hnil
    rw [List.filter_cons_of_neg (by simpa using hwi)] at hnil
    rw [occUpdate]
    have hw : ¬(w.slotId = v.slotId) := by rw [h]; exact hwi
    rw [if_neg hw, List.filter_cons_of_neg (by simpa using hwi)]
    exact ih hnil

lemma occUpdate_filter_one (acc : List Verdict) (v u : Verdict) (i : ℕ)
    (h : v.slotId = i) (hone : acc.filter (fun w => w.slotId = i) = [u]) :
    (occUpdate acc v).filter (fun w => w.slotId = i) = [keepBetter u v] := by
  induction acc with
  | nil => cases hone
  | cons w rest ih =>
    by_cases hwi : w.slotId = i
    · rw [List.filter_cons_of_pos (by simpa using hwi)] at hone
      have hwu : w = u := (List.cons.injEq _ _ _ _).mp hone |>.1
      have hrest : rest.filter (fun w => w.slotId = i) = [] :=
        (List.cons.injEq _ _ _ _).mp hone |>.2
      rw [occUpdate, if_pos (by rw [hwi, h])]
      by_cases hc : v.confidence > w.confidence
      · rw [if_pos hc, List.filter_cons_of_pos (by simpa using h), hrest, keepBetter]
        subst hwu
        rw [if_pos hc]
      · rw [if_neg hc, List.filter_cons_of_pos (by simpa using hwi), hrest, keepBetter]
        subst hwu
        rw [if_neg hc]
    · rw [List.filter_cons_of_neg (by simpa using hwi)] at hone
      rw [occUpdate, if_neg (by rw [h]; exact hwi),
        List.filter_cons_of_neg (by simpa using hwi)]
      exact ih hone

lemma processSlots_filter_ne (l : List Slot) (frame : Frame) (acc : List Verdict)
    (i : ℕ) (hl : ∀ t ∈ l, t.id ≠ i) :
    (l.foldl (fun a slot => occUpdate a (analyzeSlotOccupancy frame slot)) acc).filter
        (fun w => w.slotId = i) =
      acc.filter (fun w => w.slotId = i) := by
  induction l generalizing acc with
  | nil => rfl
  | cons t rest ih =>
    rw [List.foldl_cons, ih _ (fun x hx => hl x (List.mem_cons_of_mem _ hx))]
    exact occUpdate_filter_ne acc _ i
      (by rw [analyzeSlotOccupancy_slotId]; exact hl t (List.mem_cons_self _ _))

lemma slots_split_ids (l1 l2 : List Slot) (s : Slot)
    (hnodup : ((l1 ++ s :: l2).map Slot.id).Nodup) :
    (∀ t ∈ l1, t.id ≠ s.id) ∧ (∀ t ∈ l2, t.id ≠ s.id) := by
  rw [List.map_append, List.map_cons, List.nodup_append] at hnodup
  obtain ⟨h1, h2, hdisj⟩ := hnodup
  rw [List.nodup_cons] at h2
  constructor
  · intro t ht heq
    exact hdisj (List.mem_map_of_mem _ ht) (by rw [heq]; exact List.mem_cons_self _ _)
  · intro t ht heq
    exact h2.1 (by rw [← heq]; exact List.mem_map_of_mem _ ht)

lemma processFrame_filter_nil (slots : List Slot) (s : Slot) (frame : Frame)
    (acc : List Verdict) (hmem : s ∈ slots) (hnodup : (slots.map Slot.id).Nodup)
    (hnil : acc.filter (fun w => w.slotId = s.id) = []) :
    (processFrameVerdicts slots acc frame).filter (fun w => w.slotId = s.id) =
      [analyzeSlotOccupancy frame s] := by
  obtain ⟨l1, l2, rfl⟩ := List.append_of_mem hmem
  obtain ⟨hl1, hl2⟩ := slots_split_ids l1 l2 s hnodup
  rw [processFrameVerdicts, List.foldl_append, List.foldl_cons,
    processSlots_filter_ne l2 frame _ s.id hl2]
  apply occUpdate_filter_nil _ _ _ (analyzeSlotOccupancy_slotId frame s)
  rw [processSlots_filter_ne l1 frame acc s.id hl1]
  exact hnil

lemma processFrame_filter_one (slots : List Slot) (s : Slot) (frame : Frame)
    (acc : List Verdict) (u : Verdict) (hmem : s ∈ slots)
    (hnodup : (slots.map Slot.id).Nodup)
    (hone : acc.filter (fun w => w.slotId = s.id) = [u]) :
    (processFrameVerdicts slots acc frame).filter (fun w => w.slotId = s.id) =
      [keepBetter u (analyzeSlotOccupancy frame s)] := by
  obtain ⟨l1, l2, rfl⟩ := List.append_of_mem hmem
  obtain ⟨hl1, hl2⟩ := slots_split_ids l1 l2 s hnodup
  rw [processFrameVerdicts, List.foldl_append, List.foldl_cons,
    processSlots_filter_ne l2 frame _ s.id hl2]
  apply occUpdate_filter_one _ _ _ _ (analyzeSlotOccupancy_slotId frame s)
  rw [processSlots_filter_ne l1 frame acc s.id hl1]
  exact hone

lemma framesFold_filter (slots : List Slot) (s : Slot) (hmem : s ∈ slots)
    (hnodup : (slots.map Slot.id).Nodup) :
    ∀ (fs : List Frame) (acc : List Verdict) (u : Verdict),
      acc.filter (fun w => w.slotId = s.id) = [u] →
      (fs.foldl (processFrameVerdicts slots) acc).filter (fun w => w.slotId = s.id) =
        [fs.foldl (fun w f => keepBetter w (analyzeSlotOccupancy f s)) u] := by
  intro fs
  induction fs with
  | nil => intro acc u h; exact h
  | cons f fs ih =>
    intro acc u h
    rw [List.foldl_cons, List.foldl_cons]
    exact ih _ _ (processFrame_filter_one slots s f acc u hmem hnodup h)

lemma frameFold_mem (s : Slot) (u : Verdict) (fs : List Frame) :
    fs.foldl (fun w f => keepBetter w (analyzeSlotOccupancy f s)) u ∈
      u :: fs.map (fun f => analyzeSlotOccupancy f s) := by
  induction fs generalizing u with
  | nil => exact List.mem_cons_self _ _
  | cons f fs ih =>
    rw [List.foldl_cons, List.map_cons]
    rcases List.mem_cons.mp (ih (keepBetter u (analyzeSlotOccupancy f s))) with h | h
    · rw [h, keepBetter]
      by_cases hc : (analyzeSlotOccupancy f s).confidence > u.confidence
      · rw [if_pos hc]
        exact List.mem_cons_of_mem _ (List.mem_cons_self _ _)
      · rw [if_neg hc]
        exact List.mem_cons_self _ _
    · exact List.mem_cons_of_mem _ (List.mem_cons_of_mem _ h)

lemma frameFold_ge_init (s : Slot) (u : Verdict) (fs : List Frame) :
    u.confidence ≤
      (fs.foldl (fun w f => keepBetter w (analyzeSlotOccupancy f s)) u).confidence := by
  induction fs generalizing u with
  | nil => exact le_refl _
  | cons f fs ih =>
    rw [List.foldl_cons]
    refine le_trans ?_ (ih (keepBetter u (analyzeSlotOccupancy f s)))
    rw [keepBetter]
    by_cases hc : (analyzeSlotOccupancy f s).confidence > u.confidence
    · rw [if_pos hc]
      exact le_of_lt hc
    · rw [if_neg hc]

lemma frameFold_ge_mem (s : Slot) (u : Verdict) (fs : List Frame) (f : Frame)
    (hf : f ∈ fs) :
    (analyzeSlotOccupancy f s).confidence ≤
      (fs.foldl (fun w fr => keepBetter w (analyzeSlotOccupancy fr s)) u).confidence := by
  induction fs generalizing u with
  | nil => cases hf
  | cons g fs ih =>
    rw [List.foldl_cons]
    rcases List.mem_cons.mp hf with rfl | hmem
    · refine le_trans ?_ (frameFold_ge_init s (keepBetter u (analyzeSlotOccupancy f s)) fs)
      rw [keepBetter]
      by_cases hc : (analyzeSlotOccupancy f s).confidence > u.confidence
      · rw [if_pos hc]
      · rw [if_neg hc]
        exact le_of_not_lt hc
    · exact ih _ hmem

/-- C5: in occupancy-only aggregation, for every slot of a
configuration with distinct slot ids and every nonempty sequence of sampled
frames, exactly one verdict for that slot is retained at the end, and its
confidence is the maximum verdict confidence observed for the slot across the
sampled frames (overwrite-if-better is a max-reduction per slot). -/
theorem occupancyAggregation_max_spec (slots : List Slot) (frames : List Frame)
    (s : Slot) (hmem : s ∈ slots) (hnodup : (slots.map Slot.id).Nodup)
    (hfr : frames ≠ []) :
    ∃ v, (occupancyAggregate slots frames).filter (fun w => w.slotId = s.id) = [v] ∧
      v.confidence ∈ frames.map (fun f => (analyzeSlotOccupancy f s).confidence) ∧
      ∀ c ∈ frames.map (fun f => (analyzeSlotOccupancy f s).confidence),
        c ≤ v.confidence := by
  cases frames with
  | nil => exact absurd rfl hfr
  | cons f fs =>
    have h0 : (processFrameVerdicts slots [] f).filter (fun w => w.slotId = s.id) =
        [analyzeSlotOccupancy f s] :=
      processFrame_filter_nil slots s f [] hmem hnodup rfl
    have h1 := framesFold_filter slots s hmem hnodup fs
      (processFrameVerdicts slots [] f) (analyzeSlotOccupancy f s) h0
    refine ⟨fs.foldl (fun w fr => keepBetter w (analyzeSlotOccupancy fr s))
      (analyzeSlotOccupancy f s), ?_, ?_, ?_⟩
    · rw [occupancyAggregate, List.foldl_cons]
      exact h1
    · rw [List.map_cons]
      rcases List.mem_cons.mp (frameFold_mem s (analyzeSlotOccupancy f s) fs) with h | h
      · rw [h]
        exact List.mem_cons_self _ _
      · obtain ⟨fr, hfr2, hv⟩ := List.mem_map.mp h
        refine List.mem_cons_of_mem _ (List.mem_map.mpr ⟨fr, hfr2, ?_⟩)
        rw [hv]
    · intro c hc
      rw [List.map_cons] at hc
      rcases List.mem_cons.mp hc with rfl | hmem2
      · exact frameFold_ge_init s (analyzeSlotOccupancy f s) fs
      · obtain ⟨fr, hfr2, rfl⟩ := List.mem_map.mp hmem2
        exact frameFold_ge_mem s (analyzeSlotOccupancy f s) fs fr hfr2

/-- First concrete slot for the aggregation witness. -/
def aggSlotA : Slot := ⟨1, 1, ⟨0, 0, 10, 10⟩⟩

/-- Second concrete slot for the aggregation witness (distinct id). -/
def aggSlotB : Slot := ⟨2, 2, ⟨20, 0, 10, 10⟩⟩

/-- First sampled frame for the aggregation witness: no detections, empty crop. -/
def aggFrame1 : Frame := ⟨[], fun _ => ⟨true, 0, 0, 0⟩⟩

/-- Second sampled frame for the aggregation witness: one detection on slot A. -/
def aggFrame2 : Frame := ⟨[⟨⟨0, 0, 10, 10⟩, 9/10, "car"⟩], fun _ => ⟨true, 0, 0, 0⟩⟩

/-- Witness for C5: two slots with distinct ids over two sampled frames —
slot A retains exactly one verdict whose confidence is the maximum observed. -/
theorem occupancyAggregation_max_spec_witness :
    aggSlotA ∈ [aggSlotA, aggSlotB] ∧
    ([aggSlotA, aggSlotB].map Slot.id).Nodup ∧
    ([aggFrame1, aggFrame2] : List Frame) ≠ [] ∧
    ∃ v, (occupancyAggregate [aggSlotA, aggSlotB] [aggFrame1, aggFrame2]).filter
        (fun w => w.slotId = aggSlotA.id) = [v] ∧
      v.confidence ∈ [aggFrame1, aggFrame2].map
        (fun f => (analyzeSlotOccupancy f aggSlotA).confidence) ∧
      ∀ c ∈ [aggFrame1, aggFrame2].map
        (fun f => (analyzeSlotOccupancy f aggSlotA).confidence), c ≤ v.confidence :=
  ⟨List.mem_cons_self _ _, by decide, by simp,
   occupancyAggregation_max_spec [aggSlotA, aggSlotB] [aggFrame1, aggFrame2] aggSlotA
     (List.mem_cons_self _ _) (by decide) (by simp)⟩

/-- Descending-confidence order used by `non_max_suppression`
(`sorted(detections, key=confidence, reverse=True)`). -/
def confGE (a b : Detection) : Prop := b.confidence ≤ a.confidence

instance : DecidableRel confGE :=
  fun a b => inferInstanceAs (Decidable (b.confidence ≤ a.confidence))

instance : IsTotal Detection confGE :=
  ⟨fun a b => le_total b.confidence a.confidence⟩

instance : IsTrans Detection confGE :=
  ⟨fun _ _ _ h1 h2 => le_trans h2 h1⟩

/-- Python's `sorted` by confidence descending is the stable descending sort;
insertion sort realizes the same stable order. -/
def sortByConfDesc (dets : List Detection) : List Detection :=
  List.insertionSort confGE dets

/-- The greedy suppression loop of `utils.non_max_suppression`: pop the
highest-confidence detection, keep it, and drop every remaining detection
whose IoU with it exceeds the threshold. -/
def nmsLoop : List Detection → ℚ → List Detection
  | [], _ => []
  | current :: rest, t =>
    current :: nmsLoop (rest.filter (fun d => calculate_iou current.bbox d.bbox ≤ t)) t
termination_by l _ => l.length
decreasing_by
  simp only [List.length_cons]
  exact Nat.lt_succ_of_le (List.length_filter_le _ _)

/-- Embedding of `utils.non_max_suppression`: empty input short-circuits,
otherwise sort by confidence descending and run the greedy loop. -/
def non_max_suppression (detections : List Detection) (iou_threshold : ℚ) :
    List Detection :=
  if detections.isEmpty then []
  else nmsLoop (sortByConfDesc detections) iou_threshold

lemma nmsLoop_sublist (l : List Detection) (t : ℚ) : List.Sublist (nmsLoop l t) l := by
  induction l, t using nmsLoop.induct with
  | case1 t => simp [nmsLoop]
  | case2 current rest t ih =>
    rw [nmsLoop]
    exact (ih.trans (List.filter_sublist rest)).cons₂ current

lemma nmsLoop_pairwise (l : List Detection) (t : ℚ) :
    (nmsLoop l t).Pairwise (fun a b => calculate_iou a.bbox b.bbox ≤ t) := by
  induction l, t using nmsLoop.induct with
  | case1 t => simp [nmsLoop]
  | case2 current rest t ih =>
    rw [nmsLoop, List.pairwise_cons]
    refine ⟨?_, ih⟩
    intro b hb
    have hmem : b ∈ rest.filter (fun d => calculate_iou current.bbox d.bbox ≤ t) :=
      (nmsLoop_sublist _ _).subset hb
    simpa using (List.mem_filter.mp hmem).2

lemma nmsLoop_of_pairwise (l : List Detection) (t : ℚ)
    (h : l.Pairwise (fun a b => calculate_iou a.bbox b.bbox ≤ t)) :
    nmsLoop l t = l := by
  induction l, t using nmsLoop.induct with
  | case1 t => simp [nmsLoop]
  | case2 current rest t ih =>
    rw [List.pairwise_cons] at h
    have hf : rest.filter (fun d => calculate_iou current.bbox d.bbox ≤ t) = rest :=
      List.filter_eq_self.mpr (fun b hb => by simpa using h.1 b hb)
    rw [nmsLoop, hf]
    rw [hf] at ih
    rw [ih h.2]

/-- C8: non-max-suppression (greedy keep-best then discard overlapping, as
embedded in `non_max_suppression`) is idempotent — for every detection list
and every IoU threshold, applying it to its own output returns that output
unchanged. -/
theorem non_max_suppression_idempotent (dets : List Detection) (t : ℚ) :
    non_max_suppression (non_max_suppression dets t) t =
      non_max_suppression dets t := by
  cases dets with
  | nil => rfl
  | cons d ds =>
    have hsorted : (sortByConfDesc (d :: ds)).Sorted confGE :=
      List.sorted_insertionSort confGE (d :: ds)
    have houter : non_max_suppression (d :: ds) t =
        nmsLoop (sortByConfDesc (d :: ds)) t := by
      rw [non_max_suppression, if_neg (by simp)]
    rw [houter]
    have hout_sorted : (nmsLoop (sortByConfDesc (d :: ds)) t).Sorted confGE :=
      List.Pairwise.sublist (nmsLoop_sublist _ _) hsorted
    have hout_pair := nmsLoop_pairwise (sortByConfDesc (d :: ds)) t
    cases hnl : nmsLoop (sortByConfDesc (d :: ds)) t with
    | nil => rfl
    | cons e es =>
      rw [non_max_suppression, if_neg (by simp)]
      have hsort_eq : sortByConfDesc (e :: es) = e :: es := by
        rw [sortByConfDesc]
        exact List.Sorted.insertionSort_eq (hnl ▸ hout_sorted)
      rw [hsort_eq]
      exact nmsLoop_of_pairwise _ _ (hnl ▸ hout_pair)

/-- Model of `np.random.randint(low, high)`: the drawn value `v` is returned
when the range is nonempty; an empty range (`low >= high`) raises
`ValueError`. -/
def randint (lo hi v : ℤ) : Except String ℤ :=
  if lo < hi then Except.ok v else Except.error "low >= high"

/-- The raw values one iteration of `_mock_detect_vehicles` obtains from the
four position/size `randint` calls and from `np.random.uniform(0.6, 0.95)`. -/
structure MockDraw where
  xv : ℤ
  yv : ℤ
  wv : ℤ
  hv : ℤ
  conf : ℚ
deriving DecidableEq, Repr

/-- The draw lies within the distributions `_mock_detect_vehicles` samples
from: position in `[0, width-100) × [0, height-60)`, width in `[80, 150)`,
height in `[40, 80)`, confidence in `[0.6, 0.95]`. -/
def MockDraw.valid (d : MockDraw) (width height : ℤ) : Prop :=
  0 ≤ d.xv ∧ d.xv < width - 100 ∧ 0 ≤ d.yv ∧ d.yv < height - 60 ∧
  80 ≤ d.wv ∧ d.wv < 150 ∧ 40 ≤ d.hv ∧ d.hv < 80 ∧
  6/10 ≤ d.conf ∧ d.conf ≤ 95/100

/-- One synthetic detection of `_mock_detect_vehicles`: draw position and
size in order (the first empty `randint` range raises), then clamp the box to
the right/bottom frame edges with `x = min(x, width - w)`,
`y = min(y, height - h)`. -/
def mockDetectOne (width height : ℤ) (d : MockDraw) : Except String Detection :=
  match randint 0 (width - 100) d.xv, randint 0 (height - 60) d.yv,
      randint 80 150 d.wv, randint 40 80 d.hv with
  | Except.ok x, Except.ok y, Except.ok w, Except.ok h =>
    Except.ok ⟨⟨((min x (width - w) : ℤ) : ℚ), ((min y (height - h) : ℤ) : ℚ),
      (w : ℚ), (h : ℚ)⟩, d.conf, "car"⟩
  | Except.error e, _, _, _ => Except.error e
  | _, Except.error e, _, _ => Except.error e
  | _, _, Except.error e, _ => Except.error e
  | _, _, _, Except.error e => Except.error e

/-- The generation loop of `_mock_detect_vehicles` over the per-detection
draws; the first raised error aborts the loop. -/
def mockDetectList (width height : ℤ) : List MockDraw → Except String (List Detection)
  | [] => Except.ok []
  | d :: rest =>
    match mockDetectOne width height d, mockDetectList width height rest with
    | Except.ok det, Except.ok dets => Except.ok (det :: dets)
    | Except.error e, _ => Except.error e
    | _, Except.error e => Except.error e

/-- Embedding of `ParkingDetector._mock_detect_vehicles`: `num_detections` is
drawn from `randint(0, 5)` (so 0–4) and that many synthetic detections are
generated from the successive draws. -/
def mockDetectVehicles (width height : ℤ) (numDraw : ℕ) (draws : List MockDraw) :
    Except String (List Detection) :=
  mockDetectList width height (draws.take numDraw)

/-- C9 (evaluation at the failing input): on a 120×120 frame, with every
random draw inside its sampled range (x = 0 of [0, 20), y = 0, w = 149 of
[80, 150), h = 79 of [40, 80), confidence 0.8), the synthetic fallback
returns a detection whose box starts at x = -29 — outside the frame — and on
a 50×50 frame the x-position draw raises instead of returning detections. -/
theorem mockDetect_out_of_frame_eval :
    MockDraw.valid ⟨0, 0, 149, 79, 4/5⟩ 120 120 ∧
    mockDetectVehicles 120 120 1 [⟨0, 0, 149, 79, 4/5⟩] =
      Except.ok [⟨⟨-29, 0, 149, 79⟩, 4/5, "car"⟩] ∧
    ((-29 : ℚ) < 0) ∧
    mockDetectVehicles 50 50 1 [⟨0, 0, 80, 40, 4/5⟩] =
      Except.error "low >= high" := by
  refine ⟨?_, ?_, by norm_num, ?_⟩
  · rw [MockDraw.valid]
    norm_num
  · rw [mockDetectVehicles]
    simp only [List.take_succ_cons, List.take_zero, mockDetectList, mockDetectOne,
      randint]
    norm_num
  · rw [mockDetectVehicles]
    simp only [List.take_succ_cons, List.take_zero, mockDetectList, mockDetectOne,
      randint]
    norm_num

/-- Abstract video file as `validate_video_file` probes it: existence,
extension validity, whether OpenCV can open it, and its frames. -/
structure VideoFile where
  fileExists : Bool
  extensionValid : Bool
  opens : Bool
  frames : List Frame

/-- Embedding of `utils.validate_video_file`: existence check, extension
check, open check, then a first-frame read. Returns the validation verdict
together with the number of frame reads performed. -/
def validate_video_file (v : VideoFile) : Bool × ℕ :=
  if ¬v.fileExists then (false, 0)
  else if ¬v.extensionValid then (false, 0)
  else if ¬v.opens then (false, 0)
  else (!v.frames.isEmpty, 1)

/-- Errors raised by the validation prelude of `process_video`. -/
inductive ProcessVideoError where
  | invalidVideoFile
  | slotConfigRequired
  | cannotOpenVideo
deriving DecidableEq, Repr

/-- The validation prelude of `VideoProcessor.process_video` before the
analysis dispatch: `validate_video_file` runs first (reading one frame when
the file opens), only then is an empty slot configuration rejected, then the
capture is reopened for processing. Returns the error raised (if any) and
the number of frame reads performed up to that point. -/
def processVideoPrelude (v : VideoFile) (slot_config : List Slot) :
    Option ProcessVideoError × ℕ :=
  let validation := validate_video_file v
  if validation.1 = false then (some ProcessVideoError.invalidVideoFile, validation.2)
  else if slot_config.isEmpty then
    (some ProcessVideoError.slotConfigRequired, validation.2)
  else if ¬v.opens then (some ProcessVideoError.cannotOpenVideo, validation.2)
  else (none, validation.2)

lemma validate_reads_one (v : VideoFile) (h : (validate_video_file v).1 = true) :
    (validate_video_file v).2 = 1 := by
  rw [validate_video_file] at h ⊢
  by_cases h1 : v.fileExists = true
  · rw [if_neg (by simp [h1])] at h ⊢
    by_cases h2 : v.extensionValid = true
    · rw [if_neg (by simp [h2])] at h ⊢
      by_cases h3 : v.opens = true
      · rw [if_neg (by simp [h3])] at h ⊢
      · rw [if_pos (by simpa using h3)] at h
        exact absurd h (by simp)
    · rw [if_pos (by simpa using h2)] at h
      exact absurd h (by simp)
  · rw [if_pos (by simpa using h1)] at h
    exact absurd h (by simp)

/-- C3 counterexample: a fully valid video (exists, valid extension, opens,
one readable frame) with an empty slot list — `process_video` does raise the
configuration error, but only after `validate_video_file` has performed one
frame read, so the error is not raised before all video I/O. -/
theorem processVideo_prelude_counterexample :
    (processVideoPrelude ⟨true, true, true, [⟨[], fun _ => ⟨true, 0, 0, 0⟩⟩]⟩ []).1 =
      some ProcessVideoError.slotConfigRequired ∧
    (processVideoPrelude ⟨true, true, true, [⟨[], fun _ => ⟨true, 0, 0, 0⟩⟩]⟩ []).2 = 1 ∧
    (1 : ℕ) ≠ 0 :=
  ⟨rfl, rfl, by norm_num⟩

/-- C3 (amended): `process_video` invoked with an empty slot list on a video
that passes validation raises the slot-configuration error before the main
processing loop, but after `validate_video_file` has read exactly one frame;
configuration errors about the slot list are therefore raised after the
validation's video I/O, not before any video I/O. -/
theorem processVideo_empty_slots_spec (v : VideoFile) (slot_config : List Slot)
    (hok : (validate_video_file v).1 = true) (hempty : slot_config = []) :
    (processVideoPrelude v slot_config).1 = some ProcessVideoError.slotConfigRequired ∧
    (processVideoPrelude v slot_config).2 = 1 := by
  subst hempty
  rw [processVideoPrelude]
  simp only [hok]
  constructor
  · rw [if_neg (by simp), if_pos (by simp)]
  · rw [if_neg (by simp), if_pos (by simp)]
    exact validate_reads_one v hok

/-- Witness for C3 at the concrete valid one-frame video with empty slots. -/
theorem processVideo_empty_slots_spec_witness :
    (validate_video_file ⟨true, true, true, [⟨[], fun _ => ⟨true, 0, 0, 0⟩⟩]⟩).1 = true ∧
    (processVideoPrelude ⟨true, true, true, [⟨[], fun _ => ⟨true, 0, 0, 0⟩⟩]⟩ []).1 =
      some ProcessVideoError.slotConfigRequired ∧
    (processVideoPrelude ⟨true, true, true, [⟨[], fun _ => ⟨true, 0, 0, 0⟩⟩]⟩ []).2 = 1 :=
  ⟨rfl,
   (processVideo_empty_slots_spec ⟨true, true, true, [⟨[], fun _ => ⟨true, 0, 0, 0⟩⟩]⟩
     [] rfl rfl).1,
   (processVideo_empty_slots_spec ⟨true, true, true, [⟨[], fun _ => ⟨true, 0, 0, 0⟩⟩]⟩
     [] rfl rfl).2⟩

lemma mockDetectOne_ok (width height : ℤ) (d : MockDraw)
    (hw : 149 ≤ width) (hh : 79 ≤ height) (hv : d.valid width height) :
    mockDetectOne width height d =
      Except.ok ⟨⟨((min d.xv (width - d.wv) : ℤ) : ℚ),
        ((min d.yv (height - d.hv) : ℤ) : ℚ), (d.wv : ℚ), (d.hv : ℚ)⟩,
        d.conf, "car"⟩ ∧
    (0 : ℚ) ≤ ((min d.xv (width - d.wv) : ℤ) : ℚ) ∧
    ((min d.xv (width - d.wv) : ℤ) : ℚ) + (d.wv : ℚ) ≤ (width : ℚ) ∧
    (0 : ℚ) ≤ ((min d.yv (height - d.hv) : ℤ) : ℚ) ∧
    ((min d.yv (height - d.hv) : ℤ) : ℚ) + (d.hv : ℚ) ≤ (height : ℚ) := by
  obtain ⟨hx0, hx1, hy0, hy1, hw0, hw1, hh0, hh1, hc0, hc1⟩ := hv
  have hxr : randint 0 (width - 100) d.xv = Except.ok d.xv := by
    rw [randint, if_pos (by omega)]
  have hyr : randint 0 (height - 60) d.yv = Except.ok d.yv := by
    rw [randint, if_pos (by omega)]
  have hwr : randint 80 150 d.wv = Except.ok d.wv := by
    rw [randint, if_pos (by omega)]
  have hhr : randint 40 80 d.hv = Except.ok d.hv := by
    rw [randint, if_pos (by omega)]
  refine ⟨by rw [mockDetectOne, hxr, hyr, hwr, hhr], ?_, ?_, ?_, ?_⟩
  · exact_mod_cast le_min hx0 (by omega)
  · have h2 : min d.xv (width - d.wv) + d.wv ≤ width := by
      have := min_le_right d.xv (width - d.wv)
      linarith
    exact_mod_cast h2
  · exact_mod_cast le_min hy0 (by omega)
  · have h2 : min d.yv (height - d.hv) + d.hv ≤ height := by
      have := min_le_right d.yv (height - d.hv)
      linarith
    exact_mod_cast h2

lemma mockDetectList_safe (width height : ℤ) (hw : 149 ≤ width) (hh : 79 ≤ height) :
    ∀ (draws : List MockDraw), (∀ d ∈ draws, d.valid width height) →
    ∃ dets, mockDetectList width height draws = Except.ok dets ∧
      dets.length = draws.length ∧
      ∀ det ∈ dets, 6/10 ≤ det.confidence ∧ det.confidence ≤ 95/100 ∧
        det.cls = "car" ∧ 0 ≤ det.bbox.x ∧ det.bbox.x + det.bbox.w ≤ (width : ℚ) ∧
        0 ≤ det.bbox.y ∧ det.bbox.y + det.bbox.h ≤ (height : ℚ) := by
  intro draws hv
  induction draws with
  | nil => exact ⟨[], rfl, rfl, fun det hdet => absurd hdet (List.not_mem_nil det)⟩
  | cons d rest ih =>
    obtain ⟨hd0, hx0, hxw, hy0, hyh⟩ :=
      mockDetectOne_ok width height d hw hh (hv d (List.mem_cons_self _ _))
    obtain ⟨dets, hdets, hlen, hall⟩ := ih (fun x hx => hv x (List.mem_cons_of_mem _ hx))
    refine ⟨(⟨⟨((min d.xv (width - d.wv) : ℤ) : ℚ),
        ((min d.yv (height - d.hv) : ℤ) : ℚ), (d.wv : ℚ), (d.hv : ℚ)⟩,
        d.conf, "car"⟩ : Detection) :: dets, ?_, by simpa using hlen, ?_⟩
    · rw [mockDetectList, hd0, hdets]
    · intro det hdet
      rcases List.mem_cons.mp hdet with rfl | hmem
      · obtain ⟨_, _, _, _, _, _, _, _, hc0, hc1⟩ := hv d (List.mem_cons_self _ _)
        exact ⟨hc0, hc1, rfl, hx0, hxw, hy0, hyh⟩
      · exact hall det hmem

lemma mockDetectVehicles_safe (width height : ℤ) (numDraw : ℕ)
    (draws : List MockDraw) (hw : 149 ≤ width) (hh : 79 ≤ height)
    (hn : numDraw ≤ 4) (hv : ∀ d ∈ draws, d.valid width height) :
    ∃ dets, mockDetectVehicles width height numDraw draws = Except.ok dets ∧
      dets.length ≤ 4 ∧
      ∀ det ∈ dets, 6/10 ≤ det.confidence ∧ det.confidence ≤ 95/100 ∧
        det.cls = "car" ∧ 0 ≤ det.bbox.x ∧ det.bbox.x + det.bbox.w ≤ (width : ℚ) ∧
        0 ≤ det.bbox.y ∧ det.bbox.y + det.bbox.h ≤ (height : ℚ) := by
  obtain ⟨dets, hdets, hlen, hall⟩ :=
    mockDetectList_safe width height hw hh (draws.take numDraw)
      (fun d hd => hv d (List.mem_of_mem_take hd))
  refine ⟨dets, hdets, ?_, hall⟩
  rw [hlen]
  calc (draws.take numDraw).length ≤ numDraw := by
        rw [List.length_take]
        exact min_le_left _ _
    _ ≤ 4 := hn
